import Mathlib

/-!
Verification of the bike-share data pipeline specified for this repository.

The repository is a notebook (src/notebooks/apachespark/apachespark.py)
whose pipeline consists of four operations: a numeric predicate filter,
a reproducible sampler, a group-and-rank aggregator, and a daily
time-bucket resampler.  The filter, sampler and aggregator are invoked
through the external query engine (SQL strings and dataframe method
calls at lines 155, 176, 183-184 and 218 of the notebook), so their
bodies are not part of the repository's source; they are modelled here
from the specification.  The resampling transform `transform_df`
(lines 233-236) and the per-station loop that drives it (lines 241-250)
are repository code and are embedded faithfully: the transform's
in-place column assignments are made explicit by returning the updated
dataframe alongside the result, and a parse failure in one station
aborts the loop, as the notebook's uncaught exception would.
-/

namespace BikeShare

/-- Scalar column types of the data model: integer, string, timestamp. -/
inductive Ty where
  | tInt
  | tStr
  | tDate
deriving DecidableEq, Repr

/-- Scalar values: integers, strings, and parsed timestamps
(a timestamp is a day number once truncated to calendar-day precision). -/
inductive Value where
  | int (n : Int)
  | str (s : String)
  | date (d : Nat)
deriving DecidableEq, Repr

/-- A row is an ordered mapping from column name to scalar value. -/
abbrev Row := List (String × Value)

/-- Association-list lookup on the first matching name. -/
def alookup {α : Type} : List (String × α) → String → Option α
  | [], _ => none
  | (n, v) :: t, c => if n = c then some v else alookup t c

/-- Value of column `c` in row `r`, if present. -/
def getCol (r : Row) (c : String) : Option Value := alookup r c

/-- A dataset: a fixed schema and an ordered collection of rows. -/
structure Dataset where
  schema : List (String × Ty)
  rows : List Row
deriving DecidableEq, Repr

/-- Error kind: referenced column missing or of the wrong type. -/
inductive SchemaError where
  | missing (c : String)
  | wrongType (c : String)
deriving DecidableEq, Repr

/-- Error kind: out-of-range parameter (invalid sample fraction). -/
inductive ValueError where
  | valueError
deriving DecidableEq, Repr

/-- Error kind: malformed timestamp during resampling. -/
inductive ParseError where
  | parseError
deriving DecidableEq, Repr

instance {ε α : Type} [DecidableEq ε] [DecidableEq α] :
    DecidableEq (Except ε α)
  | .ok x, .ok y =>
    decidable_of_iff (x = y)
      ⟨fun h => by rw [h], fun h => by injection h⟩
  | .error x, .error y =>
    decidable_of_iff (x = y)
      ⟨fun h => by rw [h], fun h => by injection h⟩
  | .ok _, .error _ => isFalse (fun h => Except.noConfusion h)
  | .error _, .ok _ => isFalse (fun h => Except.noConfusion h)

/-- Comparison operators of the numeric predicate filter. -/
inductive Op where
  | lt
  | le
  | gt
  | ge
  | eq
deriving DecidableEq, Repr

/-- Evaluate a comparison operator on integers. -/
def evalOp : Op → Int → Int → Bool
  | .lt, x, v => x < v
  | .le, x, v => x ≤ v
  | .gt, x, v => v < x
  | .ge, x, v => v ≤ x
  | .eq, x, v => x = v

/-- Whether row `r` satisfies the numeric predicate `op value` on column `c`. -/
def rowSatisfies (c : String) (op : Op) (v : Int) (r : Row) : Bool :=
  match getCol r c with
  | some (.int n) => evalOp op n v
  | _ => false

/-- Modelled from the spec: the predicate filter of section 4.1 (the notebook
delegates it to the SQL engine at lines 155 and 176).  Returns the rows of
the dataset satisfying the numeric range predicate, preserving order and
schema; fails with `SchemaError` if the column is absent or non-numeric. -/
def filterOp (D : Dataset) (c : String) (op : Op) (v : Int) :
    Except SchemaError Dataset :=
  match alookup D.schema c with
  | none => .error (.missing c)
  | some .tStr => .error (.wrongType c)
  | some .tDate => .error (.wrongType c)
  | some .tInt => .ok ⟨D.schema, D.rows.filter (fun r => rowSatisfies c op v r)⟩

/-- Parameters of the reproducible sampler. -/
structure SampleSpec where
  fraction : ℚ
  seed : Nat
  withReplacement : Bool
deriving DecidableEq, Repr

/-- One step of the deterministic pseudo-random generator (a linear
congruential step modulo 2^31). -/
def lcg (s : Nat) : Nat := (1103515245 * s + 12345) % 2147483648

/-- The deterministic pseudo-random stream initialized from `seed`. -/
def prngStream (seed : Nat) : Nat → Nat
  | 0 => lcg seed
  | n + 1 => lcg (prngStream seed n)

/-- Bernoulli trial at position `i` of the stream: succeeds with
probability `frac`. -/
def bern (seed : Nat) (frac : ℚ) (i : Nat) : Bool :=
  decide ((prngStream seed i : ℚ) < frac * 2147483648)

/-- Number of copies of row `i` drawn when sampling with replacement
(Poisson-style: up to two draws from the same deterministic stream). -/
def copiesAt (seed : Nat) (frac : ℚ) (i : Nat) : Nat :=
  (if bern seed frac (2 * i) then 1 else 0) +
    (if bern seed frac (2 * i + 1) then 1 else 0)

/-- Modelled from the spec: the reproducible sampler of section 4.2 (the
notebook delegates it to the engine's `sample` method at lines 183-184).
Each row is included by a Bernoulli trial on a deterministic stream
initialized from the seed; fails with `ValueError` when the fraction lies
outside (0, 1]. -/
def sample (D : Dataset) (sp : SampleSpec) : Except ValueError Dataset :=
  if sp.fraction ≤ 0 ∨ 1 < sp.fraction then .error .valueError
  else if sp.withReplacement then
    .ok ⟨D.schema,
      (D.rows.enum.map
        (fun p => List.replicate (copiesAt sp.seed sp.fraction p.1) p.2)).flatten⟩
  else
    .ok ⟨D.schema,
      D.rows.enum.filterMap
        (fun p => if bern sp.seed sp.fraction p.1 then some p.2 else none)⟩

/-- A group of the aggregator: a key value and the number of its rows. -/
structure GroupCount where
  key : Value
  count : Nat
deriving DecidableEq, Repr

/-- The values of the key column across the rows of the dataset. -/
def keyVals (D : Dataset) (K : String) : List Value :=
  D.rows.filterMap (fun r => getCol r K)

/-- Fuel-indexed worker for `tally`; the fuel (bounded below by the list
length) makes the recursion structural. -/
def tallyF : Nat → List Value → List GroupCount
  | _, [] => []
  | 0, _ :: _ => []
  | fuel + 1, v :: vs =>
    ⟨v, vs.count v + 1⟩ :: tallyF fuel (vs.filter (fun w => decide (w ≠ v)))

/-- Count occurrences of each value, emitting groups in order of first
appearance of the key. -/
def tally (vs : List Value) : List GroupCount := tallyF vs.length vs

/-- Index of the first occurrence of `k` (the list's length if absent). -/
def firstIdx (k : Value) : List Value → Nat
  | [] => 0
  | v :: vs => if v = k then 0 else firstIdx k vs + 1

/-- Insert a group into a list sorted by non-increasing count, after all
strictly greater counts (so insertion is stable for equal counts). -/
def insertDesc (e : GroupCount) : List GroupCount → List GroupCount
  | [] => [e]
  | f :: fs => if e.count < f.count then f :: insertDesc e fs else e :: f :: fs

/-- Stable sort by non-increasing count. -/
def sortDesc (l : List GroupCount) : List GroupCount := l.foldr insertDesc []

/-- Modelled from the spec: the group-rank aggregator of section 4.3 (the
notebook delegates it to `groupBy(...).count()` plus a descending sort at
line 218).  Groups rows by the key column, counts each group, and emits
groups by descending count, ties broken by first appearance of the key;
fails with `SchemaError` if the key column is absent from the schema. -/
def groupAndRank (D : Dataset) (K : String) :
    Except SchemaError (List GroupCount) :=
  match alookup D.schema K with
  | none => .error (.missing K)
  | some _ => .ok (sortDesc (tally (keyVals D K)))

/-- Accumulate the decimal value of a run of digit characters; `none` on
any non-digit. -/
def digitsVal : List Char → Nat → Option Nat
  | [], acc => some acc
  | c :: cs, acc =>
    if c.isDigit then digitsVal cs (acc * 10 + (c.toNat - 48)) else none

/-- Interpret a nonempty run of digit characters as a natural number. -/
def parseDigits (cs : List Char) : Option Nat :=
  if cs.isEmpty then none else digitsVal cs 0

/-- Split a character list on a separator character. -/
def splitOnSep (sep : Char) : List Char → List (List Char)
  | [] => [[]]
  | c :: cs =>
    match splitOnSep sep cs with
    | [] => [[]]
    | g :: gs => if c = sep then [] :: g :: gs else (c :: g) :: gs

/-- Day number of a civil calendar date (days since 0000-03-01,
era-based civil-calendar arithmetic). -/
def daysFromCivil (y m d : Nat) : Nat :=
  let y2 := if m ≤ 2 then y - 1 else y
  let era := y2 / 400
  let yoe := y2 % 400
  let mp := (m + 9) % 12
  let doy := (153 * mp + 2) / 5 + d - 1
  let doe := yoe * 365 + yoe / 4 - yoe / 100 + doy
  era * 146097 + doe

/-- Modelled from the spec: parse a timeColumn value into a calendar day,
truncating time-of-day (section 4.4; the notebook delegates parsing to the
external dataframe library at line 235).  Accepts an ISO `YYYY-MM-DD`
string, optionally followed by a space and a time-of-day part which is
truncated; an already-parsed timestamp parses to itself. -/
def parseDate : Value → Option Nat
  | .date d => some d
  | .int _ => none
  | .str s =>
    match splitOnSep '-' (s.toList.takeWhile (fun c => decide (c ≠ ' '))) with
    | [ys, ms, ds] =>
      match parseDigits ys, parseDigits ms, parseDigits ds with
      | some y, some m, some d =>
        if 1 ≤ m ∧ m ≤ 12 ∧ 1 ≤ d ∧ d ≤ 31 then some (daysFromCivil y m d)
        else none
      | _, _, _ => none
    | _ => none

/-- The rows of the dataset whose entity column equals the given entity. -/
def entityRows (D : Dataset) (ec : String) (e : String) : List Row :=
  D.rows.filter (fun r => decide (getCol r ec = some (.str e)))

/-- Parsed calendar day of the time column of a row, if parseable. -/
def parseRowTime (tc : String) (r : Row) : Option Nat :=
  (getCol r tc).bind parseDate

/-- Parse the time column of every row; `none` as soon as any row's value
cannot be parsed. -/
def parseAll (tc : String) : List Row → Option (List Nat)
  | [] => some []
  | r :: rs =>
    match parseRowTime tc r with
    | none => none
    | some d => (parseAll tc rs).map (fun ds => d :: ds)

/-- Minimum of the nonempty list `d :: ds`. -/
def listMin (d : Nat) (ds : List Nat) : Nat := ds.foldr Nat.min d

/-- Maximum of the nonempty list `d :: ds`. -/
def listMax (d : Nat) (ds : List Nat) : Nat := ds.foldr Nat.max d

/-- Modelled from the spec: the daily zero-filling bucketer of section 4.4
(the notebook delegates the binning to the dataframe library's `resample`
at line 236).  Counts events per day and emits one bucket for every day
from the minimum to the maximum observed day, dates with no events
carrying an explicit count of zero. -/
def resampleDays : List Nat → List (Nat × Nat)
  | [] => []
  | d :: ds =>
    let lo := listMin d ds
    let hi := listMax d ds
    (List.range' lo (hi + 1 - lo)).map (fun x => (x, (d :: ds).count x))

/-- The dense daily series of one entity. -/
structure TimeBucketSeries where
  entityKey : String
  buckets : List (Nat × Nat)
deriving DecidableEq, Repr

/-- Resample one entity's events into a dense daily series; fails with
`ParseError` if any of its time values cannot be parsed. -/
def resampleEntityE (D : Dataset) (tc ec e : String) :
    Except ParseError TimeBucketSeries :=
  match parseAll tc (entityRows D ec e) with
  | none => .error .parseError
  | some days => .ok ⟨e, resampleDays days⟩

/-- Embedding of the per-station resampling loop (notebook lines
241-250).  The loop iterates over the top entities in order, appending
each entity's series to the accumulator; the notebook catches no
exception, so a parse failure in one entity aborts the loop: the series
accumulated before it remain, the error propagates to the caller, and no
later entity is processed. -/
def resampleDaily (D : Dataset) (tc ec : String) :
    List String → List TimeBucketSeries × Option ParseError
  | [] => ([], none)
  | e :: rest =>
    match resampleEntityE D tc ec e with
    | .error err => ([], some err)
    | .ok s =>
      (s :: (resampleDaily D tc ec rest).1, (resampleDaily D tc ec rest).2)

/-- Set column `c` of row `r` to `v`: overwrite in place if present,
append otherwise (the dataframe column-assignment semantics). -/
def setCol (r : Row) (c : String) (v : Value) : Row :=
  if (alookup r c).isSome then
    r.map (fun p => if p.1 = c then (p.1, v) else p)
  else r ++ [(c, v)]

/-- Parse the Start Date column of one row in place. -/
def parseDatesRow (tc : String) (r : Row) : Option Row :=
  (parseRowTime tc r).map (fun d => setCol r tc (Value.date d))

/-- Parse the time column of every row in place; `none` if any fails. -/
def parseDatesCol (tc : String) : List Row → Option (List Row)
  | [] => some []
  | r :: rs =>
    match parseDatesRow tc r with
    | none => none
    | some r2 => (parseDatesCol tc rs).map (fun t => r2 :: t)

/-- Parsed days present in the given dataframe's time column. -/
def daysOf (tc : String) (df : List Row) : List Nat :=
  df.filterMap (fun r =>
    match getCol r tc with
    | some (.date d) => some d
    | _ => none)

/-- Embedding of `transform_df` (notebook lines 233-236).  The source
assigns `df['counts'] = 1` and `df['Start Date'] = ... to_datetime ...` on
the dataframe it receives — in-place mutations, made explicit here by
returning the updated dataframe as the first component — then returns the
daily resample of the indexed counts. -/
def transform_df (df : List Row) :
    Except ParseError (List Row × List (Nat × Nat)) :=
  match parseDatesCol "Start Date"
      (df.map (fun r => setCol r "counts" (Value.int 1))) with
  | none => .error .parseError
  | some df2 => .ok (df2, resampleDays (daysOf "Start Date" df2))

/-! ## Scenario datasets used by the witnesses -/

/-- The duration dataset of the spec's first scenario. -/
def durD : Dataset :=
  ⟨[("Duration", Ty.tInt)],
   [[("Duration", Value.int 100)],
    [("Duration", Value.int 8000)],
    [("Duration", Value.int 1500)]]⟩

/-- The station dataset of the spec's group-rank scenario. -/
def staD : Dataset :=
  ⟨[("Start Station", Ty.tStr)],
   [[("Start Station", Value.str "A")],
    [("Start Station", Value.str "B")],
    [("Start Station", Value.str "A")],
    [("Start Station", Value.str "A")],
    [("Start Station", Value.str "C")]]⟩

/-- The timestamped dataset of the spec's resampling scenario, with an
extra entity whose timestamp is malformed. -/
def tsD : Dataset :=
  ⟨[("Start Station", Ty.tStr), ("Start Date", Ty.tStr)],
   [[("Start Station", Value.str "X"), ("Start Date", Value.str "2024-01-01")],
    [("Start Station", Value.str "X"), ("Start Date", Value.str "2024-01-03")],
    [("Start Station", Value.str "Y"), ("Start Date", Value.str "oops")]]⟩

/-! ## Basic facts about the filter and the sampler -/

lemma filterOp_ok {D : Dataset} {c : String} {op : Op} {v : Int} {D2 : Dataset}
    (h : filterOp D c op v = .ok D2) :
    D2.schema = D.schema ∧
      D2.rows = D.rows.filter (fun r => rowSatisfies c op v r) := by
  unfold filterOp at h
  split at h
  case h_4 =>
    injection h with h2
    subst h2
    exact ⟨rfl, rfl⟩
  all_goals simp_all

lemma sample_ok_schema {D : Dataset} {sp : SampleSpec} {D2 : Dataset}
    (h : sample D sp = .ok D2) : D2.schema = D.schema := by
  unfold sample at h
  split at h
  · simp at h
  · split at h <;> (injection h with h2; rw [← h2])

lemma rowSatisfies_lt_mono {c : String} {a b : Int} (hab : a ≤ b) (r : Row)
    (h : rowSatisfies c Op.lt a r = true) : rowSatisfies c Op.lt b r = true := by
  unfold rowSatisfies at h ⊢
  cases hg : getCol r c with
  | none => rw [hg] at h; exact h
  | some w =>
    rw [hg] at h
    cases w with
    | int n =>
      simp only [evalOp, decide_eq_true_eq] at h ⊢
      exact lt_of_lt_of_le h hab
    | str s => exact h
    | date d => exact h

/-! ## C1: the filter returns exactly the satisfying rows, in order -/

/-- C1: for every dataset and numeric range predicate, a successful
`filterOp` returns a dataset whose rows all satisfy the predicate, in which
every satisfying row of the input appears with exactly its original
multiplicity, and whose rows keep the input's relative order (they form a
sublist of the input rows). -/
theorem filter_exact_rows (D : Dataset) (c : String) (op : Op) (v : Int)
    (D2 : Dataset) (h : filterOp D c op v = .ok D2) :
    (∀ r ∈ D2.rows, rowSatisfies c op v r = true) ∧
      (∀ r : Row, rowSatisfies c op v r = true →
        D2.rows.count r = D.rows.count r) ∧
      D2.rows.Sublist D.rows := by
  obtain ⟨-, hr⟩ := filterOp_ok h
  refine ⟨?_, ?_, ?_⟩
  · intro r hmem
    rw [hr] at hmem
    exact (List.mem_filter.mp hmem).2
  · intro r hsat
    rw [hr]
    exact List.count_filter hsat
  · rw [hr]
    exact List.filter_sublist D.rows

/-- C1 witness: the spec's scenario, durations 100, 8000, 1500 filtered
below 7200. -/
theorem filter_exact_rows_witness :
    filterOp durD "Duration" Op.lt 7200 =
      .ok ⟨[("Duration", Ty.tInt)],
        [[("Duration", Value.int 100)], [("Duration", Value.int 1500)]]⟩ ∧
      List.Sublist
        [[("Duration", Value.int 100)], [("Duration", Value.int 1500)]]
        durD.rows :=
  ⟨by decide,
   (filter_exact_rows durD "Duration" Op.lt 7200
      ⟨[("Duration", Ty.tInt)],
        [[("Duration", Value.int 100)], [("Duration", Value.int 1500)]]⟩
      (by decide)).2.2⟩

/-! ## C5: sampling is deterministic -/

/-- C5: two calls of `sample` on the same dataset with the same seed, the
same fraction and the same replacement flag return identical outputs. -/
theorem sample_deterministic (D : Dataset) (sp1 sp2 : SampleSpec)
    (hf : sp1.fraction = sp2.fraction) (hs : sp1.seed = sp2.seed)
    (hw : sp1.withReplacement = sp2.withReplacement) :
    sample D sp1 = sample D sp2 := by
  cases sp1
  cases sp2
  simp only at hf hs hw
  rw [hf, hs, hw]

/-- C5 witness: two textually distinct but equal sample specifications on
the duration dataset. -/
theorem sample_deterministic_witness :
    sample durD ⟨(1 : ℚ) / 2, 20, false⟩ = sample durD ⟨(2 : ℚ) / 4, 20, false⟩ :=
  sample_deterministic durD ⟨(1 : ℚ) / 2, 20, false⟩ ⟨(2 : ℚ) / 4, 20, false⟩
    (by norm_num) rfl rfl

/-! ## C7: filtering and sampling preserve the schema -/

/-- C7: a successful `filterOp` and a successful `sample` both return a
dataset with exactly the input dataset's schema. -/
theorem filter_sample_schema_preserved (D : Dataset) (c : String) (op : Op)
    (v : Int) (sp : SampleSpec) (D1 D2 : Dataset) :
    (filterOp D c op v = .ok D1 → D1.schema = D.schema) ∧
      (sample D sp = .ok D2 → D2.schema = D.schema) :=
  ⟨fun h => (filterOp_ok h).1, fun h => sample_ok_schema h⟩

/-- C7 witness: schema preservation at the duration dataset, through the
scenario filter. -/
theorem filter_sample_schema_preserved_witness :
    ([("Duration", Ty.tInt)] : List (String × Ty)) = durD.schema :=
  (filter_sample_schema_preserved durD "Duration" Op.lt 7200
      ⟨(1 : ℚ) / 2, 20, false⟩
      ⟨[("Duration", Ty.tInt)],
        [[("Duration", Value.int 100)], [("Duration", Value.int 1500)]]⟩
      durD).1 (by decide)

/-! ## C9: the sampler rejects exactly the out-of-range fractions -/

/-- C9: `sample` returns a `ValueError` exactly when the fraction lies
outside the interval (0, 1]. -/
theorem sample_fraction_valid (D : Dataset) (sp : SampleSpec) :
    sample D sp = .error ValueError.valueError ↔
      (sp.fraction ≤ 0 ∨ 1 < sp.fraction) := by
  unfold sample
  split
  · simp_all
  · split <;> simp_all

/-! ## C10: filtering below a threshold is monotone in the threshold -/

/-- C10: raising the threshold of a strict less-than filter only adds
rows: the lower-threshold result is a sublist of the higher-threshold
result, so every row appears with at least the same multiplicity. -/
theorem filter_threshold_monotone (D : Dataset) (c : String) (a b : Int)
    (hab : a ≤ b) (Da Db : Dataset)
    (ha : filterOp D c Op.lt a = .ok Da) (hb : filterOp D c Op.lt b = .ok Db) :
    Da.rows.Sublist Db.rows ∧ ∀ r : Row, Da.rows.count r ≤ Db.rows.count r := by
  obtain ⟨-, hra⟩ := filterOp_ok ha
  obtain ⟨-, hrb⟩ := filterOp_ok hb
  have hsub : Da.rows.Sublist Db.rows := by
    rw [hra, hrb]
    exact List.monotone_filter_right D.rows
      (fun r hr => rowSatisfies_lt_mono hab r hr)
  exact ⟨hsub, fun r => hsub.count_le r⟩

/-- C10 witness: on the duration dataset, the rows with duration below
2000 form a sublist of the rows with duration below 7200. -/
theorem filter_threshold_monotone_witness :
    List.Sublist [[("Duration", Value.int 100)], [("Duration", Value.int 1500)]]
      [[("Duration", Value.int 100)], [("Duration", Value.int 1500)]] :=
  (filter_threshold_monotone durD "Duration" 2000 7200 (by norm_num)
      ⟨[("Duration", Ty.tInt)],
        [[("Duration", Value.int 100)], [("Duration", Value.int 1500)]]⟩
      ⟨[("Duration", Ty.tInt)],
        [[("Duration", Value.int 100)], [("Duration", Value.int 1500)]]⟩
      (by decide) (by decide)).1

/-! ## C6: a parse failure aborts the loop at the failing entity -/

lemma parseAll_none_of_mem {tc : String} {rows : List Row} {r : Row}
    (hmem : r ∈ rows) (hbad : parseRowTime tc r = none) :
    parseAll tc rows = none := by
  induction rows with
  | nil => cases hmem
  | cons a t ih =>
    unfold parseAll
    cases hmem with
    | head => rw [hbad]
    | tail _ hm =>
      cases hp : parseRowTime tc a with
      | none => rfl
      | some d => rw [ih hm]; rfl

/-- C6 counterexample: with the failing entity Y placed first, the loop
aborts before reaching X — the caller gets the error and no series at
all — even though every time value of X parses and X on its own yields a
series. -/
theorem resample_abort_cex :
    resampleDaily tsD "Start Date" "Start Station" ["Y", "X"] =
      ([], some ParseError.parseError) ∧
      resampleEntityE tsD "Start Date" "Start Station" "X" =
        Except.ok ⟨"X", [(739191, 1), (739192, 0), (739193, 1)]⟩ := by
  constructor
  · decide
  · decide

/-- C6 (amended): an unparseable time value aborts the resampling loop
at the first failing entity: the entities placed before it in
`topEntities` still produce their series — the caller receives exactly
that accumulated prefix together with the propagated `ParseError` — and
no entity after the failing one is processed. -/
theorem resample_abort_on_first_failure (D : Dataset) (tc ec : String)
    (pre post : List String) (e1 : String) (r0 : Row)
    (hr0 : r0 ∈ entityRows D ec e1) (hbad : parseRowTime tc r0 = none)
    (hpre : ∀ e ∈ pre, (parseAll tc (entityRows D ec e)).isSome = true) :
    resampleDaily D tc ec (pre ++ e1 :: post) =
      (pre.filterMap (fun e => (resampleEntityE D tc ec e).toOption),
        some ParseError.parseError) := by
  have he1 : resampleEntityE D tc ec e1 = .error .parseError := by
    unfold resampleEntityE
    rw [parseAll_none_of_mem hr0 hbad]
  revert hpre
  induction pre with
  | nil =>
    intro _
    rw [List.nil_append]
    unfold resampleDaily
    rw [he1]
    rfl
  | cons e pre2 ih =>
    intro hpre
    have hee : (parseAll tc (entityRows D ec e)).isSome = true :=
      hpre e (by simp)
    obtain ⟨days, hdays⟩ := Option.isSome_iff_exists.mp hee
    have hok : resampleEntityE D tc ec e = .ok ⟨e, resampleDays days⟩ := by
      unfold resampleEntityE
      rw [hdays]
    rw [List.cons_append]
    unfold resampleDaily
    rw [hok, ih (fun x hx => hpre x (by simp [hx])), List.filterMap_cons,
      hok]
    rfl

/-- C6 witness: X precedes the failing Y in the scenario, so the caller
receives X's dense series alongside the propagated error, and nothing
for Y. -/
theorem resample_abort_on_first_failure_witness :
    resampleDaily tsD "Start Date" "Start Station" ["X", "Y"] =
      ([⟨"X", [(739191, 1), (739192, 0), (739193, 1)]⟩],
        some ParseError.parseError) :=
  resample_abort_on_first_failure tsD "Start Date" "Start Station"
    ["X"] [] "Y"
    [("Start Station", Value.str "Y"), ("Start Date", Value.str "oops")]
    (by decide) (by decide) (by decide)

/-! ## Counting helpers shared by the resampler and the aggregator -/

lemma count_filter_ne {α : Type} [DecidableEq α] {x a : α} (h : x ≠ a)
    (l : List α) : (l.filter (fun y => decide (y ≠ a))).count x = l.count x :=
  List.count_filter (by simpa using h)

lemma map_self {α : Type} (l : List α) : l.map (fun x => x) = l := by
  induction l with
  | nil => rfl
  | cons a t ih => rw [List.map_cons, ih]

lemma count_add_filter_ne {α : Type} [DecidableEq α] (l : List α) (a : α) :
    l.count a + (l.filter (fun y => decide (y ≠ a))).length = l.length := by
  induction l with
  | nil => rfl
  | cons x t ih =>
    by_cases hx : x = a
    · subst hx
      rw [List.count_cons_self, List.filter_cons_of_neg (by simp),
        List.length_cons]
      omega
    · rw [List.count_cons_of_ne (Ne.symm hx),
        List.filter_cons_of_pos (by simp [hx]), List.length_cons,
        List.length_cons]
      omega

lemma sum_map_add {α : Type} (f g : α → Nat) (w : List α) :
    (w.map (fun x => f x + g x)).sum = (w.map f).sum + (w.map g).sum := by
  induction w with
  | nil => rfl
  | cons a t ih =>
    simp only [List.map_cons, List.sum_cons, ih]
    omega

lemma sum_map_indicator {α : Type} [DecidableEq α] {w : List α}
    (hw : w.Nodup) {d : α} (hd : d ∈ w) :
    (w.map (fun x => if (d == x) = true then 1 else 0)).sum = 1 := by
  induction w with
  | nil => cases hd
  | cons a t ih =>
    rcases List.mem_cons.mp hd with hda | hdt
    · subst hda
      have hnot : d ∉ t := (List.nodup_cons.mp hw).1
      simp only [List.map_cons, List.sum_cons, beq_self_eq_true, if_true]
      have hz : (t.map (fun x => if (d == x) = true then 1 else 0)).sum = 0 := by
        apply List.sum_eq_zero
        intro n hn
        obtain ⟨x, hx, hxn⟩ := List.mem_map.mp hn
        have : d ≠ x := fun he => hnot (he ▸ hx)
        simpa [this] using hxn.symm
      omega
    · have hda : d ≠ a := by
        intro he
        exact (List.nodup_cons.mp hw).1 (he ▸ hdt)
      have hax : (d == a) = false := by simp [hda]
      simp only [List.map_cons, List.sum_cons, hax, Bool.false_eq_true,
        if_false, Nat.zero_add]
      exact ih (List.nodup_cons.mp hw).2 hdt

lemma sum_count_nodup {α : Type} [DecidableEq α] (w : List α) (hw : w.Nodup) :
    ∀ days : List α, (∀ x ∈ days, x ∈ w) →
      (w.map (fun x => days.count x)).sum = days.length := by
  intro days
  induction days with
  | nil =>
    intro _
    simp [List.count_nil]
  | cons d t ih =>
    intro hsub
    have hd : d ∈ w := hsub d (by simp)
    have ht : ∀ x ∈ t, x ∈ w := fun x hx => hsub x (by simp [hx])
    simp only [List.count_cons]
    rw [sum_map_add (fun x => t.count x)
      (fun x => if (d == x) = true then 1 else 0) w]
    rw [ih ht, sum_map_indicator hw hd, List.length_cons]

/-! ## Facts about the daily resampler -/

lemma listMin_le {d : Nat} {ds : List Nat} : ∀ x ∈ d :: ds, listMin d ds ≤ x := by
  induction ds with
  | nil =>
    intro x hx
    rcases List.mem_cons.mp hx with h | h
    · subst h; exact Nat.le_refl _
    · cases h
  | cons e t ih =>
    intro x hx
    have hm : listMin d (e :: t) = Nat.min e (listMin d t) := rfl
    rcases List.mem_cons.mp hx with h | h
    · subst h
      rw [hm]
      exact le_trans (Nat.min_le_right _ _) (ih x (by simp))
    · rcases List.mem_cons.mp h with h2 | h2
      · subst h2; rw [hm]; exact Nat.min_le_left _ _
      · rw [hm]
        exact le_trans (Nat.min_le_right _ _) (ih x (by simp [h2]))

lemma le_listMax {d : Nat} {ds : List Nat} : ∀ x ∈ d :: ds, x ≤ listMax d ds := by
  induction ds with
  | nil =>
    intro x hx
    rcases List.mem_cons.mp hx with h | h
    · subst h; exact Nat.le_refl _
    · cases h
  | cons e t ih =>
    intro x hx
    have hm : listMax d (e :: t) = Nat.max e (listMax d t) := rfl
    rcases List.mem_cons.mp hx with h | h
    · subst h
      rw [hm]
      exact le_trans (ih x (by simp)) (Nat.le_max_right _ _)
    · rcases List.mem_cons.mp h with h2 | h2
      · subst h2; rw [hm]; exact Nat.le_max_left _ _
      · rw [hm]
        exact le_trans (ih x (by simp [h2])) (Nat.le_max_right _ _)

lemma chain_succ_range' : ∀ (n s : Nat),
    (List.range' s n).Chain' (fun a b => b = a + 1)
  | 0, _ => by simp
  | 1, _ => by simp
  | n + 2, s => by
    rw [List.range'_succ, List.range'_succ]
    refine List.chain'_cons.mpr ⟨rfl, ?_⟩
    rw [← List.range'_succ]
    exact chain_succ_range' (n + 1) (s + 1)

lemma parseAll_length {tc : String} : ∀ {rows : List Row} {days : List Nat},
    parseAll tc rows = some days → days.length = rows.length := by
  intro rows
  induction rows with
  | nil =>
    intro days h
    simp only [parseAll] at h
    injection h with h2
    rw [← h2]
    rfl
  | cons r t ih =>
    intro days h
    unfold parseAll at h
    cases hp : parseRowTime tc r with
    | none => rw [hp] at h; cases h
    | some d =>
      rw [hp] at h
      cases hq : parseAll tc t with
      | none => rw [hq] at h; cases h
      | some ds =>
        rw [hq] at h
        injection h with h2
        rw [← h2, List.length_cons, List.length_cons, ih hq]

/-! ## C2: the resampled series is dense over the observed range -/

/-- C2: for an entity whose time values all parse, the resampler returns a
series whose dates are consecutive days with no duplicates, covering
exactly the range from the entity's minimum to its maximum observed day;
each bucket carries the number of events of its day (zero when none), and
the counts sum to the number of rows filtered to that entity. -/
theorem resample_dense_series (D : Dataset) (tc ec e : String)
    (d : Nat) (ds : List Nat)
    (h : parseAll tc (entityRows D ec e) = some (d :: ds)) :
    resampleEntityE D tc ec e = .ok ⟨e, resampleDays (d :: ds)⟩ ∧
      ((resampleDays (d :: ds)).map Prod.fst).Chain' (fun a b => b = a + 1) ∧
      ((resampleDays (d :: ds)).map Prod.fst).Nodup ∧
      (∀ x : Nat, x ∈ (resampleDays (d :: ds)).map Prod.fst ↔
        listMin d ds ≤ x ∧ x ≤ listMax d ds) ∧
      (∀ p ∈ resampleDays (d :: ds), p.2 = (d :: ds).count p.1) ∧
      ((resampleDays (d :: ds)).map Prod.snd).sum =
        (entityRows D ec e).length := by
  have hlo : listMin d ds ≤ d := listMin_le d (by simp)
  have hhi : d ≤ listMax d ds := le_listMax d (by simp)
  have hfst : (resampleDays (d :: ds)).map Prod.fst =
      List.range' (listMin d ds) (listMax d ds + 1 - listMin d ds) := by
    unfold resampleDays
    rw [List.map_map]
    have hcomp : (Prod.fst ∘ fun x => (x, (d :: ds).count x)) =
        fun x : Nat => x := rfl
    rw [hcomp, map_self]
  have hsnd : (resampleDays (d :: ds)).map Prod.snd =
      (List.range' (listMin d ds) (listMax d ds + 1 - listMin d ds)).map
        (fun x => (d :: ds).count x) := by
    unfold resampleDays
    rw [List.map_map]
    rfl
  refine ⟨?_, ?_, ?_, ?_, ?_, ?_⟩
  · unfold resampleEntityE
    rw [h]
  · rw [hfst]
    exact chain_succ_range' _ _
  · rw [hfst]
    exact List.nodup_range' _ _
  · intro x
    rw [hfst, List.mem_range'_1]
    omega
  · intro p hp
    simp only [resampleDays, List.mem_map] at hp
    obtain ⟨x, _, hxp⟩ := hp
    rw [← hxp]
  · rw [hsnd]
    rw [sum_count_nodup _ (List.nodup_range' _ _) (d :: ds) ?_]
    · exact parseAll_length h
    · intro x hx
      rw [List.mem_range'_1]
      have h1 := listMin_le x hx
      have h2 := le_listMax x hx
      omega

/-- C2 witness: entity X of the scenario dataset, events on 2024-01-01 and
2024-01-03, yields the dense series with an explicit zero on 2024-01-02. -/
theorem resample_dense_series_witness :
    resampleEntityE tsD "Start Date" "Start Station" "X" =
      Except.ok ⟨"X", [(739191, 1), (739192, 0), (739193, 1)]⟩ :=
  (resample_dense_series tsD "Start Date" "Start Station" "X" 739191 [739193]
    (by decide)).1

/-! ## Facts about the group-rank aggregator -/

lemma tallyF_congr : ∀ (f1 : Nat) (l : List Value) (f2 : Nat),
    l.length ≤ f1 → l.length ≤ f2 → tallyF f1 l = tallyF f2 l := by
  intro f1
  induction f1 with
  | zero =>
    intro l f2 h1 _
    cases l with
    | nil => cases f2 <;> rfl
    | cons v vs => simp at h1
  | succ g ihg =>
    intro l f2 h1 h2
    cases l with
    | nil => cases f2 <;> rfl
    | cons v vs =>
      cases f2 with
      | zero => simp at h2
      | succ g2 =>
        show _ :: tallyF g _ = _ :: tallyF g2 _
        have hfl : (vs.filter (fun w => decide (w ≠ v))).length ≤ g :=
          le_trans (List.length_filter_le _ _) (by simpa using h1)
        have hfl2 : (vs.filter (fun w => decide (w ≠ v))).length ≤ g2 :=
          le_trans (List.length_filter_le _ _) (by simpa using h2)
        rw [ihg _ g2 hfl hfl2]

lemma tally_cons (v : Value) (vs : List Value) :
    tally (v :: vs) =
      ⟨v, vs.count v + 1⟩ :: tally (vs.filter (fun w => decide (w ≠ v))) := by
  show tallyF (vs.length + 1) (v :: vs) = _
  show _ :: tallyF vs.length (vs.filter (fun w => decide (w ≠ v))) = _
  rw [tallyF_congr vs.length _ _ (List.length_filter_le _ _) (le_refl _)]
  rfl

/-- Induction along the recursion structure of `tally`. -/
lemma tally_induction (P : List Value → Prop) (h0 : P [])
    (h1 : ∀ v vs, P (vs.filter (fun w => decide (w ≠ v))) → P (v :: vs)) :
    ∀ vs, P vs := by
  have key : ∀ (n : Nat) (l : List Value), l.length ≤ n → P l := by
    intro n
    induction n with
    | zero =>
      intro l hl
      cases l with
      | nil => exact h0
      | cons v t => simp at hl
    | succ m ihm =>
      intro l hl
      cases l with
      | nil => exact h0
      | cons v t =>
        refine h1 v t (ihm _ ?_)
        exact le_trans (List.length_filter_le _ _) (by simpa using hl)
  exact fun vs => key vs.length vs (le_refl _)

lemma tally_sum : ∀ vs : List Value,
    ((tally vs).map GroupCount.count).sum = vs.length := by
  intro vs
  induction vs using tally_induction with
  | h0 => simp [tally, tallyF]
  | h1 v vs ih =>
    rw [tally_cons, List.map_cons, List.sum_cons, ih, List.length_cons]
    show vs.count v + 1 + (vs.filter (fun w => decide (w ≠ v))).length =
      vs.length + 1
    have hpart := count_add_filter_ne vs v
    omega

lemma tally_mem : ∀ {vs : List Value} {k : Value} {n : Nat},
    (⟨k, n⟩ : GroupCount) ∈ tally vs ↔ k ∈ vs ∧ n = vs.count k := by
  intro vs
  induction vs using tally_induction with
  | h0 =>
    intro k n
    simp [tally, tallyF]
  | h1 v vs ih =>
    intro k n
    rw [tally_cons, List.mem_cons]
    constructor
    · rintro (hhd | htl)
      · injection hhd with hk hn
        subst hk
        subst hn
        exact ⟨by simp, (List.count_cons_self _ _).symm⟩
      · obtain ⟨hkm, hkc⟩ := ih.mp htl
        have hkv : k ≠ v := by
          have := List.mem_filter.mp hkm
          simpa using this.2
        have hkvs : k ∈ vs := (List.mem_filter.mp hkm).1
        refine ⟨by simp [hkvs], ?_⟩
        rw [hkc, count_filter_ne hkv, List.count_cons_of_ne hkv]
    · rintro ⟨hkm, hkc⟩
      rcases List.mem_cons.mp hkm with hkv | hkvs
      · subst hkv
        left
        rw [hkc, List.count_cons_self]
      · by_cases hkv : k = v
        · subst hkv
          left
          rw [hkc, List.count_cons_self]
        · right
          apply ih.mpr
          refine ⟨List.mem_filter.mpr ⟨hkvs, by simpa using hkv⟩, ?_⟩
          rw [hkc, count_filter_ne hkv, List.count_cons_of_ne hkv]

lemma firstIdx_filter_lt {k1 k2 a : Value} (h1 : k1 ≠ a) :
    ∀ {l : List Value}, k1 ∈ l → firstIdx k1 l < firstIdx k2 l →
      firstIdx k1 (l.filter (fun y => decide (y ≠ a))) <
        firstIdx k2 (l.filter (fun y => decide (y ≠ a))) := by
  intro l
  induction l with
  | nil => intro hmem; cases hmem
  | cons c t ih =>
    intro hmem hlt
    by_cases hc1 : c = k1
    · subst hc1
      have hck : (c :: t).filter (fun y => decide (y ≠ a)) =
          c :: t.filter (fun y => decide (y ≠ a)) :=
        List.filter_cons_of_pos (by simpa using h1)
      have hc2 : c ≠ k2 := by
        intro he
        rw [show firstIdx k2 (c :: t) = 0 from by simp [firstIdx, he]] at hlt
        omega
      rw [hck]
      simp [firstIdx, hc2]
    · by_cases hc2 : c = k2
      · exfalso
        rw [show firstIdx k2 (c :: t) = 0 from by simp [firstIdx, hc2]] at hlt
        omega
      · have hmem2 : k1 ∈ t := by
          rcases List.mem_cons.mp hmem with he | ht2
          · exact absurd he.symm hc1
          · exact ht2
        have hlt2 : firstIdx k1 t < firstIdx k2 t := by
          rw [show firstIdx k1 (c :: t) = firstIdx k1 t + 1 from by
              simp [firstIdx, hc1],
            show firstIdx k2 (c :: t) = firstIdx k2 t + 1 from by
              simp [firstIdx, hc2]] at hlt
          omega
        by_cases hca : c = a
        · rw [List.filter_cons_of_neg (by simp [hca])]
          exact ih hmem2 hlt2
        · rw [List.filter_cons_of_pos (by simpa using hca)]
          simp only [firstIdx, hc1, hc2, if_false]
          have := ih hmem2 hlt2
          omega

lemma tally_before : ∀ (vs : List Value) (k1 k2 : Value),
    k1 ∈ vs → k2 ∈ vs → firstIdx k1 vs < firstIdx k2 vs →
    List.Sublist [⟨k1, vs.count k1⟩, ⟨k2, vs.count k2⟩] (tally vs) := by
  intro vs
  induction vs using tally_induction with
  | h0 =>
    intro k1 k2 hmem _ _
    cases hmem
  | h1 v vs ih =>
    intro k1 k2 h1 h2 hlt
    by_cases hv1 : v = k1
    · subst hv1
      have hk2v : k2 ≠ v := by
        intro he
        rw [show firstIdx k2 (v :: vs) = 0 from by simp [firstIdx, he]] at hlt
        omega
      have hk2vs : k2 ∈ vs := by
        rcases List.mem_cons.mp h2 with he | ht
        · exact absurd he hk2v
        · exact ht
      rw [tally_cons]
      have hc1 : (v :: vs).count v = vs.count v + 1 := List.count_cons_self _ _
      have hc2 : (v :: vs).count k2 = vs.count k2 := List.count_cons_of_ne hk2v _
      rw [hc1, hc2]
      refine List.Sublist.cons₂ _ (List.singleton_sublist.mpr ?_)
      apply tally_mem.mpr
      refine ⟨List.mem_filter.mpr ⟨hk2vs, by simpa using hk2v⟩, ?_⟩
      rw [count_filter_ne hk2v]
    · have hv2 : v ≠ k2 := by
        intro he
        rw [show firstIdx k2 (v :: vs) = 0 from by simp [firstIdx, he]] at hlt
        omega
      have hk1v : k1 ≠ v := fun he => hv1 he.symm
      have hk2v : k2 ≠ v := fun he => hv2 he.symm
      have hk1vs : k1 ∈ vs := by
        rcases List.mem_cons.mp h1 with he | ht
        · exact absurd he.symm hv1
        · exact ht
      have hk2vs : k2 ∈ vs := by
        rcases List.mem_cons.mp h2 with he | ht
        · exact absurd he.symm hv2
        · exact ht
      have hlt2 : firstIdx k1 vs < firstIdx k2 vs := by
        rw [show firstIdx k1 (v :: vs) = firstIdx k1 vs + 1 from by
            simp [firstIdx, hv1],
          show firstIdx k2 (v :: vs) = firstIdx k2 vs + 1 from by
            simp [firstIdx, hv2]] at hlt
        omega
      have hm1 : k1 ∈ vs.filter (fun y => decide (y ≠ v)) :=
        List.mem_filter.mpr ⟨hk1vs, by simpa using hk1v⟩
      have hm2 : k2 ∈ vs.filter (fun y => decide (y ≠ v)) :=
        List.mem_filter.mpr ⟨hk2vs, by simpa using hk2v⟩
      have hflt := firstIdx_filter_lt hk1v hk1vs hlt2
      have hsub := ih k1 k2 hm1 hm2 hflt
      rw [count_filter_ne hk1v, count_filter_ne hk2v] at hsub
      rw [tally_cons, List.count_cons_of_ne hk1v, List.count_cons_of_ne hk2v]
      exact hsub.cons _

lemma insertDesc_perm (e : GroupCount) : ∀ l : List GroupCount,
    (insertDesc e l).Perm (e :: l)
  | [] => List.Perm.refl _
  | f :: fs => by
    unfold insertDesc
    split
    · exact ((insertDesc_perm e fs).cons f).trans (List.Perm.swap e f fs)
    · exact List.Perm.refl _

lemma sortDesc_perm : ∀ l : List GroupCount, (sortDesc l).Perm l
  | [] => List.Perm.refl _
  | x :: t => by
    have h1 : sortDesc (x :: t) = insertDesc x (sortDesc t) := rfl
    rw [h1]
    exact (insertDesc_perm x (sortDesc t)).trans ((sortDesc_perm t).cons x)

lemma insertDesc_sorted (e : GroupCount) :
    ∀ {l : List GroupCount},
      List.Pairwise (fun a b => b.count ≤ a.count) l →
      List.Pairwise (fun a b => b.count ≤ a.count) (insertDesc e l) := by
  intro l
  induction l with
  | nil => intro _; simp [insertDesc]
  | cons f fs ih =>
    intro hl
    obtain ⟨hf, hfs⟩ := List.pairwise_cons.mp hl
    unfold insertDesc
    split
    · rename_i hef
      refine List.pairwise_cons.mpr ⟨?_, ih hfs⟩
      intro x hx
      rcases List.mem_cons.mp ((insertDesc_perm e fs).mem_iff.mp hx) with
        hxe | hxf
      · subst hxe; omega
      · exact hf x hxf
    · rename_i hef
      refine List.pairwise_cons.mpr ⟨?_, hl⟩
      intro x hx
      rcases List.mem_cons.mp hx with hxf | hxfs
      · subst hxf; omega
      · exact le_trans (hf x hxfs) (by omega)

lemma sortDesc_sorted : ∀ l : List GroupCount,
    List.Pairwise (fun a b => b.count ≤ a.count) (sortDesc l)
  | [] => List.Pairwise.nil
  | x :: t => by
    have h1 : sortDesc (x :: t) = insertDesc x (sortDesc t) := rfl
    rw [h1]
    exact insertDesc_sorted x (sortDesc_sorted t)

lemma insertDesc_filter (e : GroupCount) (c : Nat) :
    ∀ l : List GroupCount,
      (insertDesc e l).filter (fun g => decide (g.count = c)) =
        if e.count = c then
          e :: l.filter (fun g => decide (g.count = c))
        else l.filter (fun g => decide (g.count = c)) := by
  intro l
  induction l with
  | nil =>
    by_cases hc : e.count = c <;> simp [insertDesc, hc]
  | cons f fs ih =>
    unfold insertDesc
    split
    · rename_i hef
      by_cases hc : e.count = c
      · have hfc : ¬ f.count = c := by omega
        rw [List.filter_cons_of_neg (by simpa using hfc), ih,
          List.filter_cons_of_neg (by simpa using hfc), if_pos hc]
      · rw [if_neg hc]
        by_cases hfc : f.count = c
        · rw [List.filter_cons_of_pos (by simpa using hfc), ih, if_neg hc,
            List.filter_cons_of_pos (by simpa using hfc)]
        · rw [List.filter_cons_of_neg (by simpa using hfc), ih, if_neg hc,
            List.filter_cons_of_neg (by simpa using hfc)]
    · by_cases hc : e.count = c
      · rw [List.filter_cons_of_pos (by simpa using hc), if_pos hc]
      · rw [List.filter_cons_of_neg (by simpa using hc), if_neg hc]

lemma sortDesc_filter (c : Nat) : ∀ l : List GroupCount,
    (sortDesc l).filter (fun g => decide (g.count = c)) =
      l.filter (fun g => decide (g.count = c)) := by
  intro l
  induction l with
  | nil => rfl
  | cons x t ih =>
    have h1 : sortDesc (x :: t) = insertDesc x (sortDesc t) := rfl
    rw [h1, insertDesc_filter]
    by_cases hc : x.count = c
    · rw [if_pos hc, ih, List.filter_cons_of_pos (by simpa using hc)]
    · rw [if_neg hc, ih, List.filter_cons_of_neg (by simpa using hc)]

lemma filterMap_length_all {α β : Type} (f : α → Option β) :
    ∀ l : List α, (∀ x ∈ l, (f x).isSome) → (l.filterMap f).length = l.length := by
  intro l
  induction l with
  | nil => intro _; rfl
  | cons a t ih =>
    intro h
    rw [List.filterMap_cons]
    cases hf : f a with
    | none =>
      have ha := h a (by simp)
      rw [hf] at ha
      cases ha
    | some b =>
      rw [List.length_cons, List.length_cons,
        ih (fun x hx => h x (by simp [hx]))]

lemma groupAndRank_ok {D : Dataset} {K : String} {gs : List GroupCount}
    (hok : groupAndRank D K = .ok gs) :
    gs = sortDesc (tally (keyVals D K)) := by
  unfold groupAndRank at hok
  split at hok
  · cases hok
  · injection hok with h
    exact h.symm

/-! ## C3: counts sum to the row count and are non-increasing -/

/-- C3: when every row carries the key column, the counts of a successful
`groupAndRank` sum to the dataset's row count, and the emitted count
sequence is non-increasing. -/
theorem groupAndRank_total_order (D : Dataset) (K : String)
    (gs : List GroupCount) (hok : groupAndRank D K = .ok gs)
    (hall : ∀ r ∈ D.rows, (getCol r K).isSome) :
    (gs.map GroupCount.count).sum = D.rows.length ∧
      List.Pairwise (fun a b => b ≤ a) (gs.map GroupCount.count) := by
  rw [groupAndRank_ok hok]
  constructor
  · rw [((sortDesc_perm (tally (keyVals D K))).map GroupCount.count).sum_eq,
      tally_sum]
    exact filterMap_length_all _ D.rows hall
  · exact List.pairwise_map.mpr (sortDesc_sorted _)

/-- C3 witness: the station scenario, counts 3, 1, 1 summing to the five
input rows. -/
theorem groupAndRank_total_order_witness :
    (([⟨Value.str "A", 3⟩, ⟨Value.str "B", 1⟩, ⟨Value.str "C", 1⟩] :
        List GroupCount).map GroupCount.count).sum = staD.rows.length :=
  (groupAndRank_total_order staD "Start Station"
    [⟨Value.str "A", 3⟩, ⟨Value.str "B", 1⟩, ⟨Value.str "C", 1⟩]
    (by decide) (by decide)).1

/-! ## C4: ties are broken by first appearance of the key -/

/-- C4: if two keys receive the same count and the first occurrence of
`k1` in the key column precedes that of `k2`, then the group of `k1`
appears before the group of `k2` in the output of `groupAndRank` (the two
groups form a sublist of the output in that order). -/
theorem groupAndRank_tiebreak (D : Dataset) (K : String)
    (gs : List GroupCount) (k1 k2 : Value)
    (hok : groupAndRank D K = .ok gs)
    (h1 : k1 ∈ keyVals D K) (h2 : k2 ∈ keyVals D K)
    (hfst : firstIdx k1 (keyVals D K) < firstIdx k2 (keyVals D K))
    (heq : (keyVals D K).count k1 = (keyVals D K).count k2) :
    List.Sublist
      [⟨k1, (keyVals D K).count k1⟩, ⟨k2, (keyVals D K).count k2⟩] gs := by
  rw [groupAndRank_ok hok]
  have tb := tally_before (keyVals D K) k1 k2 h1 h2 hfst
  have step1 := tb.filter (fun g => decide (g.count = (keyVals D K).count k1))
  have hfil :
      ([⟨k1, (keyVals D K).count k1⟩, ⟨k2, (keyVals D K).count k2⟩] :
        List GroupCount).filter
          (fun g => decide (g.count = (keyVals D K).count k1)) =
        [⟨k1, (keyVals D K).count k1⟩, ⟨k2, (keyVals D K).count k2⟩] := by
    rw [List.filter_cons_of_pos (by simp), List.filter_cons_of_pos
      (by simp [heq])]
    rfl
  rw [hfil, ← sortDesc_filter] at step1
  exact step1.trans (List.filter_sublist _)

/-- C4 witness: the scenario with station values A, B, A, A, C: B and C
both count 1 and B, having appeared first, precedes C. -/
theorem groupAndRank_tiebreak_witness :
    List.Sublist
      ([⟨Value.str "B", 1⟩, ⟨Value.str "C", 1⟩] : List GroupCount)
      [⟨Value.str "A", 3⟩, ⟨Value.str "B", 1⟩, ⟨Value.str "C", 1⟩] :=
  groupAndRank_tiebreak staD "Start Station"
    [⟨Value.str "A", 3⟩, ⟨Value.str "B", 1⟩, ⟨Value.str "C", 1⟩]
    (Value.str "B") (Value.str "C")
    (by decide) (by decide) (by decide) (by decide) (by decide)

/-! ## C8: the resampling transform mutates the dataframe it receives -/

lemma alookup_map_setCol {c c2 : String} (h : c2 ≠ c) (v : Value) :
    ∀ r : Row,
      alookup (r.map (fun p => if p.1 = c then (p.1, v) else p)) c2 =
        alookup r c2 := by
  intro r
  induction r with
  | nil => rfl
  | cons p t ih =>
    obtain ⟨n, w⟩ := p
    by_cases hn : n = c
    · subst hn
      show alookup ((if n = n then (n, v) else (n, w)) :: _) c2 = _
      rw [if_pos rfl]
      show (if n = c2 then some v else _) = if n = c2 then some w else _
      rw [if_neg (fun he => h he.symm), if_neg (fun he => h he.symm)]
      exact ih
    · show alookup ((if n = c then (n, v) else (n, w)) :: _) c2 = _
      rw [if_neg hn]
      show (if n = c2 then some w else _) = if n = c2 then some w else _
      by_cases hn2 : n = c2
      · rw [if_pos hn2, if_pos hn2]
      · rw [if_neg hn2, if_neg hn2]
        exact ih

lemma alookup_append_single {c c2 : String} (h : c2 ≠ c) (v : Value) :
    ∀ r : Row, alookup (r ++ [(c, v)]) c2 = alookup r c2 := by
  intro r
  induction r with
  | nil =>
    show (if c = c2 then some v else alookup [] c2) = none
    rw [if_neg (fun he => h he.symm)]
    rfl
  | cons p t ih =>
    obtain ⟨n, w⟩ := p
    show (if n = c2 then some w else _) = if n = c2 then some w else _
    by_cases hn2 : n = c2
    · rw [if_pos hn2, if_pos hn2]
    · rw [if_neg hn2, if_neg hn2]
      exact ih

lemma getCol_setCol_ne {c c2 : String} (h : c2 ≠ c) (v : Value) (r : Row) :
    getCol (setCol r c v) c2 = getCol r c2 := by
  unfold getCol setCol
  split
  · exact alookup_map_setCol h v r
  · exact alookup_append_single h v r

lemma parseMap_forall : ∀ {l l2 : List Row},
    parseDatesCol "Start Date"
        (l.map (fun r => setCol r "counts" (Value.int 1))) = some l2 →
      List.Forall₂
        (fun r r2 => ∀ c2 : String, c2 ≠ "counts" → c2 ≠ "Start Date" →
          getCol r2 c2 = getCol r c2) l l2 := by
  intro l
  induction l with
  | nil =>
    intro l2 h
    injection h with h2
    rw [← h2]
    exact List.Forall₂.nil
  | cons r rs ih =>
    intro l2 h
    rw [List.map_cons] at h
    unfold parseDatesCol at h
    cases hp : parseDatesRow "Start Date" (setCol r "counts" (Value.int 1)) with
    | none => rw [hp] at h; cases h
    | some r2 =>
      rw [hp] at h
      cases hq : parseDatesCol "Start Date"
          (rs.map (fun r => setCol r "counts" (Value.int 1))) with
      | none => rw [hq] at h; cases h
      | some t2 =>
        rw [hq] at h
        injection h with h2
        rw [← h2]
        refine List.Forall₂.cons ?_ (ih hq)
        intro c2 hc hd
        unfold parseDatesRow at hp
        cases hr : parseRowTime "Start Date"
            (setCol r "counts" (Value.int 1)) with
        | none => rw [hr] at hp; cases hp
        | some d =>
          rw [hr] at hp
          injection hp with hp2
          rw [← hp2, getCol_setCol_ne hd, getCol_setCol_ne hc]

/-- C8 counterexample: `transform_df` is not side-effect-free on its
input.  On a one-row dataframe the dataframe state it passes back differs
from the dataframe it received: a counts column has been added and the
time column has been overwritten in place. -/
theorem transform_mutates_input_cex :
    transform_df [[("Start Date", Value.str "2024-01-01")]] =
      Except.ok
        ([[("Start Date", Value.date 739191), ("counts", Value.int 1)]],
          [(739191, 1)]) ∧
      ([[("Start Date", Value.date 739191), ("counts", Value.int 1)]] :
        List Row) ≠ [[("Start Date", Value.str "2024-01-01")]] := by
  constructor
  · decide
  · decide

/-- C8 (amended): the filter, sampler and aggregator are pure
transformations returning new datasets, but the resampling transform
mutates the dataframe passed to it — it assigns the counts column and
overwrites the time column in place.  The mutation is bounded: every
column other than counts and Start Date is unchanged in every row. -/
theorem transform_mutation_bounded (df df2 : List Row)
    (res : List (Nat × Nat)) (h : transform_df df = .ok (df2, res)) :
    List.Forall₂
      (fun r r2 => ∀ c2 : String, c2 ≠ "counts" → c2 ≠ "Start Date" →
        getCol r2 c2 = getCol r c2) df df2 := by
  unfold transform_df at h
  cases hq : parseDatesCol "Start Date"
      (df.map (fun r => setCol r "counts" (Value.int 1))) with
  | none => rw [hq] at h; cases h
  | some dfp =>
    rw [hq] at h
    injection h with h2
    injection h2 with ha _
    rw [← ha]
    exact parseMap_forall hq

/-- C8 witness: the bounded-mutation theorem applied to the one-row
dataframe of the counterexample. -/
theorem transform_mutation_bounded_witness :
    List.Forall₂
      (fun r r2 => ∀ c2 : String, c2 ≠ "counts" → c2 ≠ "Start Date" →
        getCol r2 c2 = getCol r c2)
      [[("Start Date", Value.str "2024-01-01")]]
      [[("Start Date", Value.date 739191), ("counts", Value.int 1)]] :=
  transform_mutation_bounded
    [[("Start Date", Value.str "2024-01-01")]]
    [[("Start Date", Value.date 739191), ("counts", Value.int 1)]]
    [(739191, 1)] (by decide)

end BikeShare
